import Mathlib

/-!
Verification development for the jsq repository.

The definitions below are a shallow embedding of the code of jsq:

* `Jsq.tokenize` models the acorn tokenizer (`acorn.tokenizer(expression,
  { ecmaVersion: 'latest' })` as consumed in `src/utils.js`), restricted to
  the lexical constructs that jsq expressions exercise: identifiers and
  keywords, decimal numbers, string, template and regular-expression
  literals, line and block comments, and the punctuation of the language.
  Token labels are acorn token-type labels (`"name"`, `"num"`, `"."`,
  `"regexp"`, ...).  The regex-versus-division decision is driven by the
  `exprAllowed` flag and a context stack exactly as in acorn's tokenizer
  state machine.  Source positions are character offsets (all inputs used
  in the theorems are ASCII, so they agree with the UTF-16 offsets used by
  acorn).
* `Jsq.expandShorthands` is the rewriter of `src/utils.js` (lines 269-310).
* `Jsq.parse` is the shared parse function of `src/utils.js` (lines
  199-235), with the external `JSON.parse` capability passed as a function
  argument (`none` standing for a `SyntaxError`).
* `Jsq.writeCache` is `src/utils.js` lines 251-258, modelled as the list of
  file-system operations the function performs, with `JSON.stringify`
  passed as a function argument.
* `Jsq.mergeUpdates` models the cache-merge section of `index.js`
  (`src/unnamed/part_000` lines 223-247).
* `Jsq.mainModel` models the control flow of `main` in `index.js`
  (`src/unnamed/part_000`): the option-validation gates (lines 165-191),
  the evaluation step (lines 331-332), the output step and the final
  cache write (lines 336-344), with the external expression engine
  abstracted as an `EvalOutcome` (a normal value, a thrown fault, or a
  call to the injected `exit` utility, lines 281-283, which terminates
  the process immediately).
-/

deriving instance DecidableEq for Except

namespace Jsq

/-- A lexical token as produced by the acorn tokenizer: the label of its
token type (`token.type.label` in acorn) and its start and end character
offsets in the source text. -/
structure Tok where
  label : String
  tstart : Nat
  tend : Nat
deriving Repr, DecidableEq

/-- Tokenizer context kinds, mirroring acorn's token contexts
`b_stat` (statement block), `b_expr` (object literal), `b_tmpl`
(template substitution), `q_tmpl` (template quasi), `p_stat` and
`p_expr` (parentheses). -/
inductive Ctx where
  | bStat
  | bExpr
  | bTmpl
  | qTmpl
  | pStat
  | pExpr
deriving Repr, DecidableEq

/-- acorn's `isExpr` flag of each token context. -/
def Ctx.isExpr : Ctx → Bool
  | .bExpr => true
  | .pExpr => true
  | .qTmpl => true
  | _ => false

/-- JavaScript whitespace (the characters relevant to the modelled inputs). -/
def isJsWhitespace (c : Char) : Bool :=
  c = ' ' || c = '\t' || c = '\n' || c = '\r' || c = '\x0b' || c = '\x0c'

/-- Identifier start characters (ASCII subset of the ECMAScript grammar). -/
def isIdentStart (c : Char) : Bool :=
  c.isAlpha || c = '_' || c = '$'

/-- Identifier continuation characters. -/
def isIdentChar (c : Char) : Bool :=
  isIdentStart c || c.isDigit

/-- The ECMAScript keywords recognised by acorn at `ecmaVersion: 'latest'`
(acorn's `keywords` regular expression, ES6 set).  A word token that is a
keyword gets the keyword itself as its token-type label; any other word
gets the label `"name"`. -/
def keywordList : List String :=
  ["break", "case", "catch", "continue", "debugger", "default", "do",
   "else", "finally", "for", "function", "if", "return", "switch", "throw",
   "try", "var", "while", "with", "null", "true", "false", "instanceof",
   "typeof", "void", "delete", "new", "in", "this", "const", "class",
   "extends", "export", "import", "super"]

/-- Token-type labels with acorn's `beforeExpr` flag set.  After such a
token a `/` starts a regular expression rather than a division operator
(this is acorn's default `updateContext`). -/
def beforeExprLabels : List String :=
  ["case", "default", "do", "else", "return", "throw", "new", "in",
   "instanceof", "typeof", "void", "delete", "extends",
   "\x7b", "(", "[", ";", ":", ",", "...", "?", "=>", "+/-", "*", "%", "/",
   "_=", "=", "==/!=", "</>", "$\x7b", "!", "~", "&&", "||", "??", "&", "|", "^"]

/-- acorn's `beforeExpr` flag, looked up by token label. -/
def beforeExpr (label : String) : Bool :=
  beforeExprLabels.contains label

/-- Count the longest prefix of the list satisfying `p`. -/
def countWhile (p : Char → Bool) : List Char → Nat
  | [] => 0
  | c :: rest => if p c then countWhile p rest + 1 else 0

/-- Read the body of a single- or double-quoted string literal starting
just after the opening quote; returns the offset just past the closing
quote.  Mirrors acorn's `readString`: a backslash escapes the next
character, an unescaped line break or the end of input is an error. -/
def readStringChars (quote : Char) : List Char → Nat → Except String Nat
  | [], _ => Except.error "Unterminated string constant"
  | c :: rest, pos =>
    if c = quote then Except.ok (pos + 1)
    else if c = '\n' || c = '\r' then Except.error "Unterminated string constant"
    else if c = '\\' then
      match rest with
      | [] => Except.error "Unterminated string constant"
      | _ :: rest2 => readStringChars quote rest2 (pos + 2)
    else readStringChars quote rest (pos + 1)

/-- Read the body of a regular-expression literal starting just after the
opening `/`; returns the offset just past the closing `/`.  Mirrors
acorn's `readRegexp`: backslash escapes, a `/` inside a character class
does not terminate, a line break or the end of input is an error. -/
def readRegexChars : List Char → Nat → Bool → Bool → Except String Nat
  | [], _, _, _ => Except.error "Unterminated regular expression"
  | c :: rest, pos, escaped, inClass =>
    if c = '\n' || c = '\r' then Except.error "Unterminated regular expression"
    else if escaped then readRegexChars rest (pos + 1) false inClass
    else if c = '\\' then readRegexChars rest (pos + 1) true inClass
    else if c = '[' then readRegexChars rest (pos + 1) false true
    else if c = ']' then readRegexChars rest (pos + 1) false false
    else if c = '/' && !inClass then Except.ok (pos + 1)
    else readRegexChars rest (pos + 1) false inClass

/-- Read raw template characters starting at `pos`; returns the offset of
the next terminator (a backtick or a `${`).  Mirrors acorn's
`readTmplToken`: backslash escapes the next character and the end of
input is an error. -/
def readTmplChars : List Char → Nat → Except String Nat
  | [], _ => Except.error "Unterminated template"
  | c :: rest, pos =>
    if c = '`' then Except.ok pos
    else if c = '$' then
      match rest with
      | '{' :: _ => Except.ok pos
      | _ => readTmplChars rest (pos + 1)
    else if c = '\\' then
      match rest with
      | [] => Except.error "Unterminated template"
      | _ :: rest2 => readTmplChars rest2 (pos + 2)
    else readTmplChars rest (pos + 1)

/-- Skip a block comment whose body starts at `pos` (just after `/*`);
returns the offset just past the closing `*/`. -/
def skipBlockComment : List Char → Nat → Except String Nat
  | [], _ => Except.error "Unterminated comment"
  | c :: rest, pos =>
    if c = '*' then
      match rest with
      | '/' :: _ => Except.ok (pos + 2)
      | _ => skipBlockComment rest (pos + 1)
    else skipBlockComment rest (pos + 1)

/-- Read the exponent part of a number if present (`e` or `E`, optional
sign, at least one digit); returns the number of characters consumed, or
an error when the exponent marker is not followed by digits (acorn:
"Invalid number").  `none` means there is no exponent part. -/
def readExponent (l : List Char) : Except String Nat :=
  match l with
  | c :: rest =>
    if c = 'e' || c = 'E' then
      let (signLen, afterSign) :=
        match rest with
        | s :: r2 => if s = '+' || s = '-' then (1, r2) else (0, rest)
        | [] => (0, rest)
      let d := countWhile Char.isDigit afterSign
      if d = 0 then Except.error "Invalid number"
      else Except.ok (1 + signLen + d)
    else Except.ok 0
  | [] => Except.ok 0

/-- Read a numeric literal starting at `pos`; `startsWithDot` is true when
the literal begins with a decimal point (`.5`).  Mirrors acorn's
`readNumber` for decimal literals: digits, an optional fractional part,
an optional exponent, and an error when an identifier character directly
follows the number. -/
def readNumberChars (l : List Char) (pos : Nat) (startsWithDot : Bool) :
    Except String Nat :=
  if startsWithDot then
    -- l starts at the '.'
    match l with
    | _ :: rest =>
      let d := countWhile Char.isDigit rest
      match readExponent (rest.drop d) with
      | Except.error e => Except.error e
      | Except.ok expLen =>
        let stop := pos + 1 + d + expLen
        match (rest.drop (d + expLen)) with
        | c :: _ =>
          if isIdentChar c then Except.error "Identifier directly after number"
          else Except.ok stop
        | [] => Except.ok stop
    | [] => Except.error "Invalid number"
  else
    let d := countWhile Char.isDigit l
    let afterInt := l.drop d
    let fracLen :=
      match afterInt with
      | '.' :: r2 => 1 + countWhile Char.isDigit r2
      | _ => 0
    match readExponent (afterInt.drop fracLen) with
    | Except.error e => Except.error e
    | Except.ok expLen =>
      let stop := pos + d + fracLen + expLen
      match (afterInt.drop (fracLen + expLen)) with
      | c :: _ =>
        if isIdentChar c then Except.error "Identifier directly after number"
        else Except.ok stop
      | [] => Except.ok stop

/-- acorn's `braceIsBlock`: decides whether a `{` opens a statement block
(`b_stat`) or an object literal (`b_expr`), from the previous token label,
the current `exprAllowed` flag and the enclosing context.  (The function
contexts `f_expr` and `f_stat` and the line-break refinement of the
`return` case are outside the modelled subset.) -/
def braceIsBlock (prevLabel : Option String) (exprAllowed : Bool)
    (parent : Option Ctx) : Bool :=
  if prevLabel = some ":" && (parent = some Ctx.bStat || parent = some Ctx.bExpr) then
    parent = some Ctx.bStat
  else if prevLabel = some "return" then true
  else if prevLabel = none || prevLabel = some "else" || prevLabel = some ";"
      || prevLabel = some ")" || prevLabel = some "=>" then true
  else if prevLabel = some "\x7b" then parent = some Ctx.bStat
  else if prevLabel = some "var" || prevLabel = some "const"
      || prevLabel = some "name" then false
  else !exprAllowed

/-- The `exprAllowed` flag and context stack after emitting a token with
the given label, mirroring acorn's `updateContext` methods.  `atBrace`
carries the information computed at the emit site for `{`, `(` and
backtick tokens (which push contexts); all other labels follow acorn's
default rule `exprAllowed := beforeExpr`, with the overrides for `name`
(false), the increment operators (unchanged) and the closing brackets
(pop, then `!popped.isExpr`). -/
def updateCtx (label : String) (exprAllowed : Bool) (ctx : List Ctx) :
    Bool × List Ctx :=
  if label = "\x7d" || label = ")" then
    match ctx with
    | [] => (true, [])
    | c :: rest => (!c.isExpr, rest)
  else if label = "++/--" then (exprAllowed, ctx)
  else if label = "name" then (false, ctx)
  else (beforeExpr label, ctx)

/-- One maximal-munch operator read for the simple punctuation of the
modelled subset: returns the token label and its length.  Labels are
acorn token-type labels. -/
def readOperator (c : Char) (rest : List Char) : Option (String × Nat) :=
  if c = '+' then
    match rest with
    | '+' :: _ => some ("++/--", 2)
    | _ => some ("+/-", 1)
  else if c = '-' then
    match rest with
    | '-' :: _ => some ("++/--", 2)
    | _ => some ("+/-", 1)
  else if c = '*' then
    match rest with
    | '*' :: _ => some ("**", 2)
    | _ => some ("*", 1)
  else if c = '%' then some ("%", 1)
  else if c = '=' then
    match rest with
    | '>' :: _ => some ("=>", 2)
    | '=' :: '=' :: _ => some ("==/!=", 3)
    | '=' :: _ => some ("==/!=", 2)
    | _ => some ("=", 1)
  else if c = '!' then
    match rest with
    | '=' :: '=' :: _ => some ("==/!=", 3)
    | '=' :: _ => some ("==/!=", 2)
    | _ => some ("!", 1)
  else if c = '<' then
    match rest with
    | '=' :: _ => some ("</>", 2)
    | _ => some ("</>", 1)
  else if c = '>' then
    match rest with
    | '=' :: _ => some ("</>", 2)
    | _ => some ("</>", 1)
  else if c = '&' then
    match rest with
    | '&' :: _ => some ("&&", 2)
    | _ => some ("&", 1)
  else if c = '|' then
    match rest with
    | '|' :: _ => some ("||", 2)
    | _ => some ("|", 1)
  else if c = '^' then some ("^", 1)
  else if c = '~' then some ("~", 1)
  else none

/-- The main tokenizer loop.  `src` is the whole input, `rest` the
characters from offset `pos` on, `exprAllowed` and `ctx` the acorn
tokenizer state, `prevLabel` the label of the last emitted token, and
`acc` the reversed list of tokens emitted so far.  The fuel argument
dominates the number of consumed characters; `tokenize` supplies enough
for the loop never to run out on inputs it accepts. -/
def lexLoop (src : List Char) : Nat → List Char → Nat → Bool → List Ctx →
    Option String → List Tok → Except String (List Tok)
  | 0, _, _, _, _, _, _ => Except.error "Tokenizer fuel exhausted"
  | fuel + 1, rest, pos, exprAllowed, ctx, prevLabel, acc =>
    match ctx with
    | Ctx.qTmpl :: ctxRest =>
      -- inside a template literal: acorn's readTmplToken override
      match rest with
      | [] => Except.error "Unterminated template"
      | '`' :: r =>
        let tok : Tok := ⟨"`", pos, pos + 1⟩
        lexLoop src fuel r (pos + 1) false ctxRest (some "`") (tok :: acc)
      | '$' :: '{' :: r =>
        let tok : Tok := ⟨"$\x7b", pos, pos + 2⟩
        lexLoop src fuel r (pos + 2) true (Ctx.bTmpl :: Ctx.qTmpl :: ctxRest)
          (some "$\x7b") (tok :: acc)
      | _ =>
        match readTmplChars rest pos with
        | Except.error e => Except.error e
        | Except.ok stop =>
          let tok : Tok := ⟨"template", pos, stop⟩
          lexLoop src fuel (rest.drop (stop - pos)) stop false ctx
            (some "template") (tok :: acc)
    | _ =>
      match rest with
      | [] => Except.ok acc.reverse
      | c :: r =>
        if isJsWhitespace c then
          lexLoop src fuel r (pos + 1) exprAllowed ctx prevLabel acc
        else if c = '/' then
          match r with
          | '/' :: r2 =>
            -- line comment: skipped, not emitted (acorn skipLineComment)
            let n := countWhile (fun ch => !(ch = '\n' || ch = '\r')) r2
            lexLoop src fuel (r2.drop n) (pos + 2 + n) exprAllowed ctx prevLabel acc
          | '*' :: r2 =>
            match skipBlockComment r2 (pos + 2) with
            | Except.error e => Except.error e
            | Except.ok stop =>
              lexLoop src fuel (src.drop stop) stop exprAllowed ctx prevLabel acc
          | _ =>
            if exprAllowed then
              -- regular expression literal
              match readRegexChars r (pos + 1) false false with
              | Except.error e => Except.error e
              | Except.ok bodyStop =>
                let flags := countWhile isIdentChar (src.drop bodyStop)
                let stop := bodyStop + flags
                let tok : Tok := ⟨"regexp", pos, stop⟩
                let (ea, cx) := updateCtx "regexp" exprAllowed ctx
                lexLoop src fuel (src.drop stop) stop ea cx (some "regexp") (tok :: acc)
            else
              match r with
              | '=' :: r2 =>
                let tok : Tok := ⟨"_=", pos, pos + 2⟩
                let (ea, cx) := updateCtx "_=" exprAllowed ctx
                lexLoop src fuel r2 (pos + 2) ea cx (some "_=") (tok :: acc)
              | _ =>
                let tok : Tok := ⟨"/", pos, pos + 1⟩
                let (ea, cx) := updateCtx "/" exprAllowed ctx
                lexLoop src fuel r (pos + 1) ea cx (some "/") (tok :: acc)
        else if c = '.' then
          match r with
          | d :: _ =>
            if d.isDigit then
              match readNumberChars rest pos true with
              | Except.error e => Except.error e
              | Except.ok stop =>
                let tok : Tok := ⟨"num", pos, stop⟩
                let (ea, cx) := updateCtx "num" exprAllowed ctx
                lexLoop src fuel (src.drop stop) stop ea cx (some "num") (tok :: acc)
            else if d = '.' then
              match r with
              | _ :: '.' :: r3 =>
                let tok : Tok := ⟨"...", pos, pos + 3⟩
                let (ea, cx) := updateCtx "..." exprAllowed ctx
                lexLoop src fuel r3 (pos + 3) ea cx (some "...") (tok :: acc)
              | _ =>
                let tok : Tok := ⟨".", pos, pos + 1⟩
                let (ea, cx) := updateCtx "." exprAllowed ctx
                lexLoop src fuel r (pos + 1) ea cx (some ".") (tok :: acc)
            else
              let tok : Tok := ⟨".", pos, pos + 1⟩
              let (ea, cx) := updateCtx "." exprAllowed ctx
              lexLoop src fuel r (pos + 1) ea cx (some ".") (tok :: acc)
          | [] =>
            let tok : Tok := ⟨".", pos, pos + 1⟩
            let (ea, cx) := updateCtx "." exprAllowed ctx
            lexLoop src fuel r (pos + 1) ea cx (some ".") (tok :: acc)
        else if c.isDigit then
          match readNumberChars rest pos false with
          | Except.error e => Except.error e
          | Except.ok stop =>
            let tok : Tok := ⟨"num", pos, stop⟩
            let (ea, cx) := updateCtx "num" exprAllowed ctx
            lexLoop src fuel (src.drop stop) stop ea cx (some "num") (tok :: acc)
        else if c = '"' || c = '\x27' then
          match readStringChars c r (pos + 1) with
          | Except.error e => Except.error e
          | Except.ok stop =>
            let tok : Tok := ⟨"string", pos, stop⟩
            let (ea, cx) := updateCtx "string" exprAllowed ctx
            lexLoop src fuel (src.drop stop) stop ea cx (some "string") (tok :: acc)
        else if c = '`' then
          let tok : Tok := ⟨"`", pos, pos + 1⟩
          lexLoop src fuel r (pos + 1) false (Ctx.qTmpl :: ctx) (some "`") (tok :: acc)
        else if isIdentStart c then
          let len := countWhile isIdentChar rest
          let word := String.mk (rest.take len)
          let label := if keywordList.contains word then word else "name"
          let tok : Tok := ⟨label, pos, pos + len⟩
          let (ea, cx) := updateCtx label exprAllowed ctx
          lexLoop src fuel (rest.drop len) (pos + len) ea cx (some label) (tok :: acc)
        else if c = '{' then
          let kind := if braceIsBlock prevLabel exprAllowed ctx.head? then Ctx.bStat
            else Ctx.bExpr
          let tok : Tok := ⟨"\x7b", pos, pos + 1⟩
          lexLoop src fuel r (pos + 1) true (kind :: ctx) (some "\x7b") (tok :: acc)
        else if c = '}' then
          let tok : Tok := ⟨"\x7d", pos, pos + 1⟩
          let (ea, cx) := updateCtx "\x7d" exprAllowed ctx
          lexLoop src fuel r (pos + 1) ea cx (some "\x7d") (tok :: acc)
        else if c = '(' then
          let kind := if prevLabel = some "if" || prevLabel = some "for"
              || prevLabel = some "with" || prevLabel = some "while" then Ctx.pStat
            else Ctx.pExpr
          let tok : Tok := ⟨"(", pos, pos + 1⟩
          lexLoop src fuel r (pos + 1) true (kind :: ctx) (some "(") (tok :: acc)
        else if c = ')' then
          let tok : Tok := ⟨")", pos, pos + 1⟩
          let (ea, cx) := updateCtx ")" exprAllowed ctx
          lexLoop src fuel r (pos + 1) ea cx (some ")") (tok :: acc)
        else if c = '[' then
          let tok : Tok := ⟨"[", pos, pos + 1⟩
          let (ea, cx) := updateCtx "[" exprAllowed ctx
          lexLoop src fuel r (pos + 1) ea cx (some "[") (tok :: acc)
        else if c = ']' then
          let tok : Tok := ⟨"]", pos, pos + 1⟩
          let (ea, cx) := updateCtx "]" exprAllowed ctx
          lexLoop src fuel r (pos + 1) ea cx (some "]") (tok :: acc)
        else if c = ';' then
          let tok : Tok := ⟨";", pos, pos + 1⟩
          let (ea, cx) := updateCtx ";" exprAllowed ctx
          lexLoop src fuel r (pos + 1) ea cx (some ";") (tok :: acc)
        else if c = ':' then
          let tok : Tok := ⟨":", pos, pos + 1⟩
          let (ea, cx) := updateCtx ":" exprAllowed ctx
          lexLoop src fuel r (pos + 1) ea cx (some ":") (tok :: acc)
        else if c = ',' then
          let tok : Tok := ⟨",", pos, pos + 1⟩
          let (ea, cx) := updateCtx "," exprAllowed ctx
          lexLoop src fuel r (pos + 1) ea cx (some ",") (tok :: acc)
        else if c = '?' then
          match r with
          | '.' :: r2 =>
            -- `?.` unless followed by a digit (acorn readToken_question)
            match r2 with
            | d :: _ =>
              if d.isDigit then
                let tok : Tok := ⟨"?", pos, pos + 1⟩
                let (ea, cx) := updateCtx "?" exprAllowed ctx
                lexLoop src fuel r (pos + 1) ea cx (some "?") (tok :: acc)
              else
                let tok : Tok := ⟨"?.", pos, pos + 2⟩
                let (ea, cx) := updateCtx "?." exprAllowed ctx
                lexLoop src fuel r2 (pos + 2) ea cx (some "?.") (tok :: acc)
            | [] =>
              let tok : Tok := ⟨"?.", pos, pos + 2⟩
              let (ea, cx) := updateCtx "?." exprAllowed ctx
              lexLoop src fuel r2 (pos + 2) ea cx (some "?.") (tok :: acc)
          | '?' :: r2 =>
            let tok : Tok := ⟨"??", pos, pos + 2⟩
            let (ea, cx) := updateCtx "??" exprAllowed ctx
            lexLoop src fuel r2 (pos + 2) ea cx (some "??") (tok :: acc)
          | _ =>
            let tok : Tok := ⟨"?", pos, pos + 1⟩
            let (ea, cx) := updateCtx "?" exprAllowed ctx
            lexLoop src fuel r (pos + 1) ea cx (some "?") (tok :: acc)
        else
          match readOperator c r with
          | some (label, len) =>
            let tok : Tok := ⟨label, pos, pos + len⟩
            let (ea, cx) := updateCtx label exprAllowed ctx
            lexLoop src fuel (rest.drop len) (pos + len) ea cx (some label) (tok :: acc)
          | none => Except.error "Unexpected character"

/-- The acorn tokenizer as used by `expandShorthands`:
`[...acorn.tokenizer(expression, { ecmaVersion: 'latest' })]`.
Returns the token list, or the tokenizer error for input it rejects
(acorn raises a `SyntaxError` while the token iterator is being
spread). -/
def tokenize (s : String) : Except String (List Tok) :=
  lexLoop s.data (s.data.length + 1) s.data 0 true [] none []

/-- `NON_SHORTHAND_LABELS` of `src/utils.js` line 269. -/
def nonShorthandLabels : List String :=
  ["name", "num", "]", ")", "\x7d", "null", "true", "false"]

/-- `expression.slice(a, b)` on character offsets. -/
def sliceChars (src : List Char) (a b : Nat) : List Char :=
  (src.take b).drop a

/-- JavaScript `String.prototype.trim`. -/
def jsTrim (l : List Char) : List Char :=
  ((l.dropWhile isJsWhitespace).reverse.dropWhile isJsWhitespace).reverse

/-- `isPropertyAccess` of `src/utils.js` lines 285-287: the next token is
a name and the previous token label is in `NON_SHORTHAND_LABELS`. -/
def isPropertyAccess (rest : List Tok) (prevLabel : Option String) : Bool :=
  rest.head?.map Tok.label = some "name" &&
    (match prevLabel with
     | some l => nonShorthandLabels.contains l
     | none => false)

/-- `isDecimalNumber` of `src/utils.js` lines 290-292: the next token is a
number and the text between the dot and it trims to nothing. -/
def isDecimalNumber (src : List Char) (t : Tok) (rest : List Tok) : Bool :=
  rest.head?.map Tok.label = some "num" &&
    (match rest.head? with
     | some nt => jsTrim (sliceChars src t.tend nt.tstart) = []
     | none => false)

/-- The combined skip condition of `src/utils.js` line 294: the dot is
left alone when it is ordinary property access or a decimal number. -/
def dotSkip (src : List Char) (t : Tok) (rest : List Tok)
    (prevLabel : Option String) : Bool :=
  isPropertyAccess rest prevLabel || isDecimalNumber src t rest

/-- The token-scanning loop of `expandShorthands` (`src/utils.js` lines
275-307).  `prevLabel` is the label of the previous token as the loop
sees it: the code relabels a rewritten dot token to `"name"` so that the
next iteration treats it as a name, so the carried label is `"name"`
after a rewrite and the original label otherwise.  `cursor` and `result`
are the cursor and accumulated output of the code. -/
def scanToks (src repl : List Char) :
    List Tok → Option String → Nat → List Char → List Char
  | [], _, cursor, result => result ++ src.drop cursor
  | t :: rest, prevLabel, cursor, result =>
    if t.label ≠ "." then
      scanToks src repl rest (some t.label) cursor result
    else if dotSkip src t rest prevLabel then
      scanToks src repl rest (some ".") cursor result
    else
      let result2 := result ++ sliceChars src cursor t.tstart ++ repl
      let cursor2 :=
        if rest.head?.map Tok.label = some "name" then t.tstart else t.tend
      scanToks src repl rest (some "name") cursor2 result2

/-- `expandShorthands(expression, replacement)` of `src/utils.js` lines
270-310.  The tokenizer error propagates (the code does not catch it). -/
def expandShorthands (expression replacement : String) : Except String String :=
  match tokenize expression with
  | Except.error e => Except.error e
  | Except.ok toks =>
    Except.ok (String.mk (scanToks expression.data replacement.data toks none 0 []))

/-- Whether an `Except` is a success. -/
def isOkE {α : Type} (e : Except String α) : Bool :=
  match e with
  | Except.ok _ => true
  | Except.error _ => false

/-- The branch conditions of the scanning loop, folded over a token list:
`true` when every dot token is skipped by the loop (each one is an
ordinary property access or a decimal-number dot), so that the loop
rewrites nothing.  The carried `prevLabel` evolves exactly as in
`scanToks` on the skip path. -/
def allDotsSkipped (src : List Char) : List Tok → Option String → Bool
  | [], _ => true
  | t :: rest, prevLabel =>
    if t.label ≠ "." then
      allDotsSkipped src rest (some t.label)
    else if dotSkip src t rest prevLabel then
      allDotsSkipped src rest (some ".")
    else false

/-- A JavaScript value, as far as the modelled code inspects one:
`null` and `undefined` (both nullish), strings, and the structured
values produced by JSON parsing. -/
inductive JSVal where
  | jsNull
  | undef
  | boolV (b : Bool)
  | numV (n : Int)
  | strV (s : String)
  | arrV (xs : List JSVal)

/-- Result of the shared parse function: a value handed back to the
caller, or the fatal invalid-JSON path (`process.exit(1)` after the
guidance messages, `src/utils.js` lines 226-232). -/
inductive ParseResult where
  | value (v : JSVal)
  | fatalInvalidJson

/-- JavaScript `String.prototype.trim` on `String`. -/
def jsTrimStr (s : String) : String :=
  String.mk (jsTrim s.data)

/-- Split a character list on a separator character. -/
def splitOnChar (sep : Char) : List Char → List (List Char)
  | [] => [[]]
  | x :: rest =>
    match splitOnChar sep rest with
    | [] => [[]]
    | grp :: grps =>
      if x = sep then [] :: grp :: grps else (x :: grp) :: grps

/-- JavaScript `text.split(String.fromCharCode(10))`. -/
def splitLines (s : String) : List String :=
  (splitOnChar '\n' s.data).map String.mk

/-- `parse(text, { fallbackRaw })` of `src/utils.js` lines 199-235.  The
external `JSON.parse` capability is the `jsonParse` argument; `none`
stands for a thrown `SyntaxError`.  The guard on line 200 returns the
argument unchanged when it is nullish, not a string, or a string whose
trim is empty.  Otherwise the code tries a strict parse, then an NDJSON
parse of the trimmed text line by line, then either falls back to the
raw text or takes the fatal invalid-JSON path. -/
def parse (jsonParse : String → Option JSVal) (text : JSVal)
    (fallbackRaw : Bool) : ParseResult :=
  match text with
  | JSVal.strV s =>
    if jsTrimStr s = "" then ParseResult.value (JSVal.strV s)
    else
      match jsonParse s with
      | some v => ParseResult.value v
      | none =>
        match (splitLines (jsTrimStr s)).mapM jsonParse with
        | some vs => ParseResult.value (JSVal.arrV vs)
        | none =>
          if fallbackRaw then ParseResult.value (JSVal.strV s)
          else ParseResult.fatalInvalidJson
  | other => ParseResult.value other

/-- The session cache record: `values`, `fns`, `in`, `out`
(`src/unnamed/part_000` lines 208-220).  The two mappings are modelled
as partial functions from names. -/
structure UserContext where
  values : String → Option JSVal
  fns : String → Option String
  inVal : Option JSVal
  outVal : Option JSVal

/-- A file-system operation performed by the cache store. -/
inductive FsOp where
  | mkdirRecursive (dir : String)
  | writeFile (path contents : String)
  | rename (source dest : String)
deriving Repr, DecidableEq

/-- Whether a file-system operation is a rename. -/
def FsOp.isRename : FsOp → Bool
  | FsOp.rename _ _ => true
  | _ => false

/-- Join path segments with slashes. -/
def joinSlash : List (List Char) → List Char
  | [] => []
  | [g] => g
  | g :: rest => g ++ '/' :: joinSlash rest

/-- Node `path.dirname` for slash-separated paths. -/
def pathDirname (p : String) : String :=
  let parts := splitOnChar '/' p.data
  if parts.length ≤ 1 then "." else String.mk (joinSlash parts.dropLast)

/-- `writeCache(cache)` of `src/utils.js` lines 251-258, as the sequence
of file-system operations it performs: serialize the record
(`JSON.stringify`, passed here as the `stringify` argument), create the
parent directory recursively, then write the serialized record to the
cache file path. -/
def writeCache (stringify : UserContext → String) (cacheFilePath : String)
    (cache : UserContext) : List FsOp :=
  let json := stringify cache
  [FsOp.mkdirRecursive (pathDirname cacheFilePath),
   FsOp.writeFile cacheFilePath json]

/-- `userContext.values[name] = v; delete userContext.fns[name]`
(`src/unnamed/part_000` lines 226-227, 233-234). -/
def setValueEntry (c : UserContext) (n : String) (v : JSVal) : UserContext :=
  { c with
    values := fun k => if k = n then some v else c.values k,
    fns := fun k => if k = n then none else c.fns k }

/-- `userContext.fns[name] = cmd; delete userContext.values[name]`
(`src/unnamed/part_000` lines 239-240, 245-246). -/
def setFnEntry (c : UserContext) (n : String) (cmd : String) : UserContext :=
  { c with
    fns := fun k => if k = n then some cmd else c.fns k,
    values := fun k => if k = n then none else c.values k }

/-- Lines 223-229: when stdin is piped, the parsed input is stored in
`userContext.in`, and under the `--as` name (with the same-named cached
function retired) when an alias was given. -/
def applyStdin (c : UserContext) (hasStdin : Bool) (stdinVal : JSVal)
    (asName : Option String) : UserContext :=
  if hasStdin then
    let c2 := { c with inVal := some stdinVal }
    match asName with
    | some a => setValueEntry c2 a stdinVal
    | none => c2
  else c

/-- The cache-merge section of `main` (`src/unnamed/part_000` lines
223-247): the piped input, then every `--input.name` value, then every
`--fn.name` command, then the `--resolve` shorthand are merged into the
record loaded from the cache, in source order.  Values retire same-named
cached functions and functions retire same-named cached values. -/
def mergeUpdates (c : UserContext) (hasStdin : Bool) (stdinVal : JSVal)
    (asName : Option String) (inputs : List (String × JSVal))
    (fnDecls : List (String × String)) (resolveOpt : Option String) :
    UserContext :=
  let c1 := applyStdin c hasStdin stdinVal asName
  let c2 := inputs.foldl (fun acc p => setValueEntry acc p.1 p.2) c1
  let c3 := fnDecls.foldl (fun acc p => setFnEntry acc p.1 p.2) c2
  match resolveOpt with
  | some r => setFnEntry c3 "resolve" r
  | none => c3

/-- The names that the current run adds to the session record (the names
whose bindings lines 223-247 update). -/
def updatedNames (hasStdin : Bool) (asName : Option String)
    (inputs : List (String × JSVal)) (fnDecls : List (String × String))
    (resolveOpt : Option String) : List String :=
  (if hasStdin then asName.toList else []) ++ inputs.map Prod.fst
    ++ fnDecls.map Prod.fst ++ (if resolveOpt.isSome then ["resolve"] else [])

/-- The parsed command-line options that drive the control flow of `main`
(`src/unnamed/part_000`): the named-input keys (`Object.keys(opts.input)`),
the function keys (`Object.keys(opts.fn)`), the optional `--as` alias and
`--save-as` name, the stdin flag and the `--json`, `--no-cache`,
`--fn.resolve` and `--resolve` switches. -/
structure Opts where
  inputKeys : List String
  fnKeys : List String
  asName : Option String
  saveAs : Option String
  hasStdin : Bool
  noCache : Bool
  jsonFlag : Bool
  fnHasResolve : Bool
  resolveOpt : Bool

/-- The outcome of `script.runInContext(context)` (line 332), with the
expression engine abstracted as a capability: it returns a value (whose
`JSON.stringify`-ability the output step inspects), throws a runtime
fault, or calls the injected `exit` utility (lines 281-283), which
terminates the process immediately via `process.exit`. -/
inductive EvalOutcome where
  | ok (stringifiable : Bool)
  | fault (msg : String)
  | exited (code : Int)

/-- How a run of `main` ends. -/
inductive MainOutcome where
  | asWithoutStdin
  | saveAsConflict
  | nameCollision (inputNames fnNames : List String)
  | resolveConflict
  | evalFault (msg : String)
  | exitedWith (code : Int)
  | outputNotStringifiable
  | success
deriving Repr, DecidableEq

/-- The control flow of `main` (`src/unnamed/part_000`), from option
validation to the final cache write, paired with whether `writeCache`
was executed.  In source order: the `--as`-without-stdin gate (lines
165-168), the `--save-as`-with-`--no-cache` gate (lines 170-173), the
name-collision gate (lines 175-186, which compares `varNames` against
its set of distinct names and reports the input-name and function-name
lists), the `--resolve`-conflict gate (lines 188-191), then evaluation
(line 332); a thrown fault or a `process.exit` from the expression ends
the run before the output step and the cache write; on a normal result
the output step exits when the result is not stringifiable and `--json`
or `--save-as` was requested (lines 360-364), and otherwise the record
is written to the cache unless `--no-cache` was given (lines 342-344). -/
def mainModel (o : Opts) (ev : EvalOutcome) : MainOutcome × Bool :=
  if o.asName.isSome && !o.hasStdin then (MainOutcome.asWithoutStdin, false)
  else if o.saveAs.isSome && o.noCache then (MainOutcome.saveAsConflict, false)
  else
    let inputNames := o.inputKeys ++ o.asName.toList
    let varNames := inputNames ++ o.fnKeys
    if varNames.dedup.length < varNames.length then
      (MainOutcome.nameCollision inputNames o.fnKeys, false)
    else if o.fnHasResolve && o.resolveOpt then (MainOutcome.resolveConflict, false)
    else
      match ev with
      | EvalOutcome.fault e => (MainOutcome.evalFault e, false)
      | EvalOutcome.exited c => (MainOutcome.exitedWith c, false)
      | EvalOutcome.ok stringifiable =>
        if !stringifiable && (o.jsonFlag || o.saveAs.isSome) then
          (MainOutcome.outputNotStringifiable, false)
        else (MainOutcome.success, !o.noCache)

/-- The single-quoted string literal with a leading dot inside, written
through character codes (39 is the single quote). -/
def singleQuoted : String :=
  String.mk [Char.ofNat 39, '.', 'b', 'a', 'r', Char.ofNat 39]

/-- The empty session record. -/
def emptyContext : UserContext :=
  ⟨fun _ => none, fun _ => none, none, none⟩

end Jsq

namespace Jsq

/-- Rebuilding a string from its character data yields the string. -/
theorem stringMkData (s : String) : String.mk s.data = s := rfl

/-- If every dot token is skipped by the scanning loop, the loop only
copies the source text: it returns the accumulated result followed by
the rest of the expression from the cursor on. -/
theorem scanToks_skip_id (src repl : List Char) :
    ∀ (ts : List Tok) (prev : Option String) (cursor : Nat) (result : List Char),
    allDotsSkipped src ts prev = true →
    scanToks src repl ts prev cursor result = result ++ src.drop cursor := by
  intro ts
  induction ts with
  | nil =>
    intro prev cursor result _
    simp [scanToks]
  | cons t rest ih =>
    intro prev cursor result h
    rw [scanToks]
    rw [allDotsSkipped] at h
    by_cases hl : t.label = "."
    · rw [if_neg (not_not_intro hl)] at h ⊢
      by_cases hskip : dotSkip src t rest prev = true
      · rw [if_pos hskip] at h ⊢
        exact ih _ _ _ h
      · rw [if_neg hskip] at h
        exact absurd h (by simp)
    · rw [if_pos hl] at h ⊢
      exact ih _ _ _ h

/-- A list with a repeated element loses length under `dedup`. -/
theorem dedupLenLt (l : List String) (h : ¬ l.Nodup) :
    l.dedup.length < l.length := by
  have hsub : l.dedup.Sublist l := l.dedup_sublist
  rcases lt_or_eq_of_le hsub.length_le with hlt | heq
  · exact hlt
  · exact absurd (hsub.eq_of_length heq ▸ l.nodup_dedup) h

/-- A `dedup` over a duplicate-free list does not shrink it. -/
theorem dedupLenEq (l : List String) (h : l.Nodup) :
    ¬ l.dedup.length < l.length := by
  rw [h.dedup]
  exact lt_irrefl _

/-- Setting a value entry clears the function entry under the same name. -/
theorem setValueEntry_fns_self (c : UserContext) (n : String) (v : JSVal) :
    (setValueEntry c n v).fns n = none := by
  simp [setValueEntry]

/-- Setting a function entry clears the value entry under the same name. -/
theorem setFnEntry_values_self (c : UserContext) (n : String) (cmd : String) :
    (setFnEntry c n cmd).values n = none := by
  simp [setFnEntry]

/-- Value updates preserve value-function exclusivity at every name. -/
theorem setValueEntry_excl (c : UserContext) (m : String) (v : JSVal)
    (n : String) (h : c.values n = none ∨ c.fns n = none) :
    (setValueEntry c m v).values n = none ∨ (setValueEntry c m v).fns n = none := by
  by_cases hnm : n = m
  · right
    simp [setValueEntry, hnm]
  · simpa [setValueEntry, hnm] using h

/-- Function updates preserve value-function exclusivity at every name. -/
theorem setFnEntry_excl (c : UserContext) (m : String) (cmd : String)
    (n : String) (h : c.values n = none ∨ c.fns n = none) :
    (setFnEntry c m cmd).values n = none ∨ (setFnEntry c m cmd).fns n = none := by
  by_cases hnm : n = m
  · left
    simp [setFnEntry, hnm]
  · simpa [setFnEntry, hnm] using h

/-- The value-merge fold preserves exclusivity at every name. -/
theorem foldValues_excl (l : List (String × JSVal)) (n : String) :
    ∀ c : UserContext, (c.values n = none ∨ c.fns n = none) →
    ((l.foldl (fun acc p => setValueEntry acc p.1 p.2) c).values n = none ∨
     (l.foldl (fun acc p => setValueEntry acc p.1 p.2) c).fns n = none) := by
  induction l with
  | nil => intro c h; exact h
  | cons p rest ih =>
    intro c h
    exact ih _ (setValueEntry_excl c p.1 p.2 n h)

/-- The function-merge fold preserves exclusivity at every name. -/
theorem foldFns_excl (l : List (String × String)) (n : String) :
    ∀ c : UserContext, (c.values n = none ∨ c.fns n = none) →
    ((l.foldl (fun acc p => setFnEntry acc p.1 p.2) c).values n = none ∨
     (l.foldl (fun acc p => setFnEntry acc p.1 p.2) c).fns n = none) := by
  induction l with
  | nil => intro c h; exact h
  | cons p rest ih =>
    intro c h
    exact ih _ (setFnEntry_excl c p.1 p.2 n h)

/-- The value-merge fold establishes exclusivity at every name it adds. -/
theorem foldValues_establish (l : List (String × JSVal)) (n : String) :
    ∀ c : UserContext, n ∈ l.map Prod.fst →
    ((l.foldl (fun acc p => setValueEntry acc p.1 p.2) c).values n = none ∨
     (l.foldl (fun acc p => setValueEntry acc p.1 p.2) c).fns n = none) := by
  induction l with
  | nil =>
    intro c hmem
    exact absurd hmem (by simp)
  | cons p rest ih =>
    intro c hmem
    by_cases hn : n = p.1
    · subst hn
      exact foldValues_excl rest p.1 _ (Or.inr (setValueEntry_fns_self c p.1 p.2))
    · rw [List.map_cons, List.mem_cons] at hmem
      rcases hmem with h1 | h1
      · exact absurd h1 hn
      · exact ih _ h1

/-- The function-merge fold establishes exclusivity at every name it adds. -/
theorem foldFns_establish (l : List (String × String)) (n : String) :
    ∀ c : UserContext, n ∈ l.map Prod.fst →
    ((l.foldl (fun acc p => setFnEntry acc p.1 p.2) c).values n = none ∨
     (l.foldl (fun acc p => setFnEntry acc p.1 p.2) c).fns n = none) := by
  induction l with
  | nil =>
    intro c hmem
    exact absurd hmem (by simp)
  | cons p rest ih =>
    intro c hmem
    by_cases hn : n = p.1
    · subst hn
      exact foldFns_excl rest p.1 _ (Or.inl (setFnEntry_values_self c p.1 p.2))
    · rw [List.map_cons, List.mem_cons] at hmem
      rcases hmem with h1 | h1
      · exact absurd h1 hn
      · exact ih _ h1

/-- The resolve step preserves exclusivity at every name. -/
theorem resolveStep_excl (c : UserContext) (resolveOpt : Option String)
    (n : String) (h : c.values n = none ∨ c.fns n = none) :
    ((match resolveOpt with
      | some r => setFnEntry c "resolve" r
      | none => c).values n = none ∨
     (match resolveOpt with
      | some r => setFnEntry c "resolve" r
      | none => c).fns n = none) := by
  cases resolveOpt with
  | none => exact h
  | some r => exact setFnEntry_excl c "resolve" r n h

end Jsq

namespace Jsq

/-- Claim C1 (counterexample): the rewriter is not total.  On the
lexically malformed input consisting of a single double quote the acorn
tokenizer raises an unterminated-string error, which `expandShorthands`
does not catch, so the call fails instead of returning the span
unmodified. -/
theorem claim1_cex_tokenizer_error :
    isOkE (expandShorthands "\"" "input") = false := by decide

/-- Claim C1 (amended): the rewriter is deterministic and total on every
expression the lexer accepts: whenever tokenization succeeds,
`expandShorthands` returns a rewritten text and never fails. -/
theorem claim1_total_on_lexable (s repl : String)
    (h : isOkE (tokenize s) = true) :
    isOkE (expandShorthands s repl) = true := by
  unfold expandShorthands
  cases htok : tokenize s with
  | error e =>
    rw [htok] at h
    exact absurd h (by simp [isOkE])
  | ok toks => simp [isOkE]

/-- Witness for C1 at a concrete input. -/
theorem claim1_total_on_lexable_witness :
    isOkE (expandShorthands ".foo" "input") = true :=
  claim1_total_on_lexable ".foo" "input" (by decide)

/-- Claim C2 (counterexample): the rewriter is not idempotent.  With
binding name `input`, rewriting `.in/./` glues the replacement onto the
keyword `in`; the regular-expression literal of the first pass then
re-tokenizes as two division operators around a shorthand dot, and the
second pass rewrites again. -/
theorem claim2_cex_not_idempotent :
    expandShorthands ".in/./" "input" = Except.ok "inputin/./" ∧
    expandShorthands "inputin/./" "input" = Except.ok "inputin/input/" := by
  constructor
  · decide
  · decide

/-- Claim C2 (amended): the rewriter is idempotent on every input whose
rewritten form re-tokenizes with all its dots in skip position (ordinary
property access or decimal literals) — in particular it never
double-prefixes the main binding there.  Rewriting can change the
token stream of its own output only when a replacement merges with an
adjacent keyword, as in the counterexample. -/
theorem claim2_idempotent_on_fully_expanded (s t repl : String) (ts : List Tok)
    (h1 : expandShorthands s repl = Except.ok t)
    (h2 : tokenize t = Except.ok ts)
    (h3 : allDotsSkipped t.data ts none = true) :
    expandShorthands t repl = Except.ok t := by
  unfold expandShorthands
  rw [h2]
  show Except.ok (String.mk (scanToks t.data repl.data ts none 0 [])) = Except.ok t
  rw [scanToks_skip_id t.data repl.data ts none 0 [] h3, List.nil_append,
    List.drop_zero, stringMkData]

/-- Witness for C2 at a concrete input: rewriting `.foo` gives
`input.foo`, and rewriting the result changes nothing. -/
theorem claim2_idempotent_witness :
    expandShorthands "input.foo" "input" = Except.ok "input.foo" :=
  claim2_idempotent_on_fully_expanded ".foo" "input.foo" "input"
    [⟨"name", 0, 5⟩, ⟨".", 5, 6⟩, ⟨"name", 6, 9⟩]
    (by decide) (by decide) (by decide)

/-- Claim C3: the concrete rewriting cases with binding name `input`:
the expansion cases, the unchanged property-access, decimal and
optional-call cases, and the opacity of line comments, regex literals
and all three string quoting styles even when they contain a leading
dot. -/
theorem claim3_concrete_cases :
    expandShorthands ".foo" "input" = Except.ok "input.foo" ∧
    expandShorthands ".foo + .bar" "input" = Except.ok "input.foo + input.bar" ∧
    expandShorthands "{foo:.bar}" "input" = Except.ok "{foo:input.bar}" ∧
    expandShorthands "{..foo}" "input" = Except.ok "{input.foo}" ∧
    expandShorthands "{....foo}" "input" = Except.ok "{...input.foo}" ∧
    expandShorthands "." "input" = Except.ok "input" ∧
    expandShorthands ". + .foo" "input" = Except.ok "input + input.foo" ∧
    expandShorthands "foo.bar" "input" = Except.ok "foo.bar" ∧
    expandShorthands ".5" "input" = Except.ok ".5" ∧
    expandShorthands "foo?.()" "input" = Except.ok "foo?.()" ∧
    expandShorthands "// .foo" "input" = Except.ok "// .foo" ∧
    expandShorthands "/.foo/" "input" = Except.ok "/.foo/" ∧
    expandShorthands "\".foo\"" "input" = Except.ok "\".foo\"" ∧
    expandShorthands singleQuoted "input" = Except.ok singleQuoted ∧
    expandShorthands "`.baz`" "input" = Except.ok "`.baz`" := by
  refine ⟨?_, ?_, ?_, ?_, ?_, ?_, ?_, ?_, ?_, ?_, ?_, ?_, ?_, ?_, ?_⟩ <;> decide

/-- Claim C4 (counterexample): a dot immediately preceded by a name token
is not always left alone: when nothing follows it, the code rewrites it.
With binding name `input`, `foo.` becomes `fooinput` rather than staying
unchanged. -/
theorem claim4_cex_trailing_dot_rewritten :
    expandShorthands "foo." "input" = Except.ok "fooinput" := by decide

/-- Claim C4 (amended): a dot token immediately preceded by a token whose
kind is name, a closing bracket or one of the literal keywords null,
true, false is treated as ordinary property access and is never
rewritten, provided the token after the dot is a name: the scanning loop
leaves its span untouched (same cursor and same accumulated output) and
moves on. -/
theorem claim4_property_access_skipped (src repl : List Char) (t : Tok)
    (rest : List Tok) (prevLabel : String) (cursor : Nat) (result : List Char)
    (hdot : t.label = ".")
    (hprev : prevLabel ∈ (["name", "]", ")", "\x7d", "null", "true", "false"] : List String))
    (hnext : rest.head?.map Tok.label = some "name") :
    scanToks src repl (t :: rest) (some prevLabel) cursor result =
      scanToks src repl rest (some ".") cursor result := by
  have hmem : prevLabel ∈ nonShorthandLabels := by
    fin_cases hprev <;> decide
  have hskip : dotSkip src t rest (some prevLabel) = true := by
    unfold dotSkip isPropertyAccess
    rw [hnext]
    simp [hmem]
  rw [scanToks]
  rw [if_neg (not_not_intro hdot), if_pos hskip]

/-- Witness for C4 at a concrete input (the dot of `foo.bar`). -/
theorem claim4_property_access_witness :
    scanToks "foo.bar".data "input".data
      [⟨".", 3, 4⟩, ⟨"name", 4, 7⟩] (some "name") 0 [] =
    scanToks "foo.bar".data "input".data [⟨"name", 4, 7⟩] (some ".") 0 [] :=
  claim4_property_access_skipped "foo.bar".data "input".data
    ⟨".", 3, 4⟩ [⟨"name", 4, 7⟩] "name" 0 [] rfl (by decide) (by decide)

/-- Claim C5 (counterexample): saving the cache does not go through a
temporary path and a rename.  At a concrete record and path the operation
trace is exactly a recursive mkdir of the parent directory followed by a
direct write to the cache file; it contains no rename. -/
theorem claim5_cex_no_rename :
    writeCache (fun _ => "") "cachedir/cache.json" emptyContext =
      [FsOp.mkdirRecursive "cachedir",
       FsOp.writeFile "cachedir/cache.json" ""] ∧
    (writeCache (fun _ => "") "cachedir/cache.json" emptyContext).all
      (fun op => !op.isRename) = true := by
  constructor
  · decide
  · decide

/-- Claim C5 (amended): saving the session cache creates missing parent
directories and then writes the serialized record directly to the cache
file path, in that order; no temporary path and no rename are involved,
so atomicity against concurrent readers is not provided. -/
theorem claim5_write_direct (stringify : UserContext → String)
    (cacheFilePath : String) (cache : UserContext) :
    writeCache stringify cacheFilePath cache =
      [FsOp.mkdirRecursive (pathDirname cacheFilePath),
       FsOp.writeFile cacheFilePath (stringify cache)] ∧
    (writeCache stringify cacheFilePath cache).all
      (fun op => !op.isRename) = true := by
  constructor
  · rfl
  · rfl

/-- Claim C6: whenever two user-declared sources claim the same name — a
named input and a named function, or either of them and the explicit
alias of the main input — the run fails with the name-collision error,
which reports the input-name and function-name lists containing the
offending identifiers, the cache is not written, and the outcome is the
same whatever the expression engine would have produced (evaluation is
not attempted).  The hypotheses state that the earlier option gates do
not fire first (the alias presupposes piped input, and save-as is not
combined with no-cache). -/
theorem claim6_name_collision (o : Opts) (ev : EvalOutcome) (n : String)
    (hstdin : o.asName.isSome = true → o.hasStdin = true)
    (hsave : ¬(o.saveAs.isSome = true ∧ o.noCache = true))
    (hc : (n ∈ o.inputKeys ∧ n ∈ o.fnKeys) ∨
          (o.asName = some n ∧ n ∈ o.inputKeys) ∨
          (o.asName = some n ∧ n ∈ o.fnKeys)) :
    mainModel o ev =
      (MainOutcome.nameCollision (o.inputKeys ++ o.asName.toList) o.fnKeys,
       false) := by
  have h1 : (o.asName.isSome && !o.hasStdin) = false := by
    cases has : o.asName.isSome
    · simp
    · simp [hstdin has]
  have h2 : (o.saveAs.isSome && o.noCache) = false := by
    cases hs : o.saveAs.isSome
    · simp
    · cases hn : o.noCache
      · simp
      · exact absurd ⟨hs, hn⟩ hsave
  have hdup : ¬ ((o.inputKeys ++ o.asName.toList) ++ o.fnKeys).Nodup := by
    intro hnd
    rcases List.nodup_append.mp hnd with ⟨hleft, _, hdisj⟩
    rcases hc with ⟨hi, hf⟩ | ⟨ha, hi⟩ | ⟨ha, hf⟩
    · exact hdisj (List.mem_append_left _ hi) hf
    · rw [ha] at hleft
      rcases List.nodup_append.mp hleft with ⟨_, _, hdisj2⟩
      exact hdisj2 hi (by simp [Option.toList])
    · rw [ha] at hdisj
      exact hdisj (List.mem_append_right _ (by simp [Option.toList])) hf
  have hlt := dedupLenLt _ hdup
  unfold mainModel
  rw [h1, h2]
  simp only [Bool.false_eq_true, if_false]
  rw [if_pos hlt]

/-- Witness for C6 at concrete options: input `foo` collides with
function `foo`. -/
theorem claim6_name_collision_witness :
    mainModel ⟨["foo"], ["foo"], none, none, true, false, false, false, false⟩
      (EvalOutcome.ok true) =
      (MainOutcome.nameCollision ["foo"] ["foo"], false) :=
  claim6_name_collision
    ⟨["foo"], ["foo"], none, none, true, false, false, false, false⟩
    (EvalOutcome.ok true) "foo"
    (by decide) (by decide) (Or.inl ⟨by decide, by decide⟩)

/-- Claim C7: merging the current run into the session record applies the
retirement rule.  Every name the run updates — the alias of the piped
input, a named input, a declared function, or the resolve shorthand —
ends up bound on at most one side: its value entry or its function entry
is gone in the merged record. -/
theorem claim7_retirement (c : UserContext) (hasStdin : Bool)
    (stdinVal : JSVal) (asName : Option String)
    (inputs : List (String × JSVal)) (fnDecls : List (String × String))
    (resolveOpt : Option String) (n : String)
    (h : n ∈ updatedNames hasStdin asName inputs fnDecls resolveOpt) :
    (mergeUpdates c hasStdin stdinVal asName inputs fnDecls resolveOpt).values n
        = none ∨
    (mergeUpdates c hasStdin stdinVal asName inputs fnDecls resolveOpt).fns n
        = none := by
  unfold updatedNames at h
  unfold mergeUpdates
  rcases List.mem_append.mp h with h3 | hres
  · rcases List.mem_append.mp h3 with h2 | hfn
    · rcases List.mem_append.mp h2 with hstdinMem | hinput
      · -- n is the alias of the piped input
        apply resolveStep_excl
        apply foldFns_excl
        apply foldValues_excl
        rcases hcase : hasStdin with _ | _
        · rw [hcase] at hstdinMem
          exact absurd hstdinMem (by simp)
        · rw [hcase] at hstdinMem
          cases hasn : asName with
          | none => exact absurd hstdinMem (by simp [hasn])
          | some a =>
            rw [hasn] at hstdinMem
            have hna : n = a := by simpa [Option.toList] using hstdinMem
            subst hna
            unfold applyStdin
            exact Or.inr
              (setValueEntry_fns_self { c with inVal := some stdinVal } n stdinVal)
      · -- n is a named input
        apply resolveStep_excl
        apply foldFns_excl
        exact foldValues_establish inputs n _ hinput
    · -- n is a declared function
      apply resolveStep_excl
      exact foldFns_establish fnDecls n _ hfn
  · -- n is the resolve shorthand
    cases hro : resolveOpt with
    | none =>
      rw [hro] at hres
      exact absurd hres (by simp)
    | some r =>
      rw [hro] at hres
      have hn : n = "resolve" := by simpa using hres
      subst hn
      exact Or.inl (setFnEntry_values_self _ "resolve" r)

/-- Witness for C7 at concrete data: adding `foo` as a value retires the
cached function `foo`. -/
theorem claim7_retirement_witness :
    (mergeUpdates
      ⟨fun _ => none, fun k => if k = "foo" then some "cmd" else none,
       none, none⟩
      false JSVal.jsNull none [("foo", JSVal.numV 1)] [] none).values "foo"
        = none ∨
    (mergeUpdates
      ⟨fun _ => none, fun k => if k = "foo" then some "cmd" else none,
       none, none⟩
      false JSVal.jsNull none [("foo", JSVal.numV 1)] [] none).fns "foo"
        = none :=
  claim7_retirement
    ⟨fun _ => none, fun k => if k = "foo" then some "cmd" else none,
     none, none⟩
    false JSVal.jsNull none [("foo", JSVal.numV 1)] [] none "foo"
    (by simp [updatedNames])

/-- Claim C8 (counterexample): when the expression engine throws, the run
reports the fault, but the cache write is skipped even though caching is
enabled: at concrete options with caching on, the run ends in the fault
outcome with the write-flag false. -/
theorem claim8_cex_fault_skips_cache :
    mainModel ⟨[], [], none, none, true, false, false, false, false⟩
      (EvalOutcome.fault "boom") = (MainOutcome.evalFault "boom", false) := by
  decide

/-- Claim C8 (amended): a runtime fault of the expression engine is
propagated to the caller unchanged and the run ends on the fault path,
and the session cache is not written at all — the cache write only
happens after a fully successful evaluation and output.  The hypotheses
state that the option gates pass. -/
theorem claim8_fault_no_cache_write (o : Opts) (msg : String)
    (hstdin : o.asName.isSome = true → o.hasStdin = true)
    (hsave : ¬(o.saveAs.isSome = true ∧ o.noCache = true))
    (hnodup : ((o.inputKeys ++ o.asName.toList) ++ o.fnKeys).Nodup)
    (hres : ¬(o.fnHasResolve = true ∧ o.resolveOpt = true)) :
    mainModel o (EvalOutcome.fault msg) = (MainOutcome.evalFault msg, false) := by
  have h1 : (o.asName.isSome && !o.hasStdin) = false := by
    cases has : o.asName.isSome
    · simp
    · simp [hstdin has]
  have h2 : (o.saveAs.isSome && o.noCache) = false := by
    cases hs : o.saveAs.isSome
    · simp
    · cases hn : o.noCache
      · simp
      · exact absurd ⟨hs, hn⟩ hsave
  have h4 : (o.fnHasResolve && o.resolveOpt) = false := by
    cases hf : o.fnHasResolve
    · simp
    · cases hr : o.resolveOpt
      · simp
      · exact absurd ⟨hf, hr⟩ hres
  unfold mainModel
  rw [h1, h2]
  simp only [Bool.false_eq_true, if_false]
  rw [if_neg (dedupLenEq _ hnodup), h4]
  simp only [Bool.false_eq_true, if_false]

/-- Witness for C8 at concrete options. -/
theorem claim8_fault_no_cache_write_witness :
    mainModel ⟨["a"], ["b"], none, none, false, false, false, false, false⟩
      (EvalOutcome.fault "TypeError") =
      (MainOutcome.evalFault "TypeError", false) :=
  claim8_fault_no_cache_write
    ⟨["a"], ["b"], none, none, false, false, false, false, false⟩
    "TypeError" (by decide) (by decide) (by decide) (by decide)

/-- Claim C9 (counterexample): the injected exit utility ends the process
immediately and the cache-persist step is skipped unconditionally — at
concrete options with caching enabled and pending context, a call to
exit ends the run with the write-flag false; there is no way to request
a flush. -/
theorem claim9_cex_exit_skips_cache :
    mainModel ⟨[], [], none, none, true, false, false, false, false⟩
      (EvalOutcome.exited 0) = (MainOutcome.exitedWith 0, false) := by
  decide

/-- Claim C9 (amended): when the evaluated expression calls the exit
utility, the process ends immediately with the given code and the
cache-persist step is always skipped: pending cache updates accumulated
up to the call are never flushed (the source calls `process.exit`
directly, before the `writeCache` line is reached).  The hypotheses
state that the option gates pass. -/
theorem claim9_exit_no_cache_write (o : Opts) (code : Int)
    (hstdin : o.asName.isSome = true → o.hasStdin = true)
    (hsave : ¬(o.saveAs.isSome = true ∧ o.noCache = true))
    (hnodup : ((o.inputKeys ++ o.asName.toList) ++ o.fnKeys).Nodup)
    (hres : ¬(o.fnHasResolve = true ∧ o.resolveOpt = true)) :
    mainModel o (EvalOutcome.exited code) =
      (MainOutcome.exitedWith code, false) := by
  have h1 : (o.asName.isSome && !o.hasStdin) = false := by
    cases has : o.asName.isSome
    · simp
    · simp [hstdin has]
  have h2 : (o.saveAs.isSome && o.noCache) = false := by
    cases hs : o.saveAs.isSome
    · simp
    · cases hn : o.noCache
      · simp
      · exact absurd ⟨hs, hn⟩ hsave
  have h4 : (o.fnHasResolve && o.resolveOpt) = false := by
    cases hf : o.fnHasResolve
    · simp
    · cases hr : o.resolveOpt
      · simp
      · exact absurd ⟨hf, hr⟩ hres
  unfold mainModel
  rw [h1, h2]
  simp only [Bool.false_eq_true, if_false]
  rw [if_neg (dedupLenEq _ hnodup), h4]
  simp only [Bool.false_eq_true, if_false]

/-- Witness for C9 at concrete options. -/
theorem claim9_exit_no_cache_write_witness :
    mainModel ⟨["a"], [], none, none, false, false, false, false, false⟩
      (EvalOutcome.exited 42) = (MainOutcome.exitedWith 42, false) :=
  claim9_exit_no_cache_write
    ⟨["a"], [], none, none, false, false, false, false, false⟩
    42 (by decide) (by decide) (by decide) (by decide)

/-- Claim C10: the shared parse function returns its argument unchanged —
attempting no structured parse and never taking the fatal invalid-JSON
path — whenever the argument is nullish, not a string, or a string whose
trim is empty, whatever the `JSON.parse` capability would do and whether
or not the raw fallback is enabled; so empty or whitespace-only piped
input never triggers the fatal path, even for the primary input. -/
theorem claim10_guard_returns_unchanged (jsonParse : String → Option JSVal)
    (fallbackRaw : Bool) (text : JSVal)
    (h : ∀ s, text = JSVal.strV s → jsTrimStr s = "") :
    parse jsonParse text fallbackRaw = ParseResult.value text := by
  cases text with
  | strV s =>
    simp only [parse]
    rw [if_pos (h s rfl)]
  | jsNull => rfl
  | undef => rfl
  | boolV b => rfl
  | numV m => rfl
  | arrV xs => rfl

/-- Witness for C10 at a concrete whitespace-only string. -/
theorem claim10_guard_returns_unchanged_witness :
    parse (fun _ => none) (JSVal.strV "  ") false =
      ParseResult.value (JSVal.strV "  ") :=
  claim10_guard_returns_unchanged (fun _ => none) false (JSVal.strV "  ")
    (by intro s hs; cases hs; decide)

end Jsq
